import Mathlib

/-!
Shallow embedding of the Jarvix contextual-memory ingestion pipeline
(`jarvix/ingest/pipeline.py` and `jarvix/ingest/connectors/calendar.py`).

Python dictionaries are modelled as association lists in insertion order
(`List (String × Val)`); Python objects appearing as dictionary values are
modelled by the inductive type `Val`.  Fallible operations return `Except`
or `Option`; exceptions raised by the Python code correspond to `.error` /
`none` results.  External services (the memory service and the Grok
enrichment endpoint) are modelled by an abstract environment `Env` of
response functions, and the pipeline additionally returns the trace of the
calls it issued, so that claims about "store calls" and "fetch calls" can
be stated.
-/

namespace Jarvix

/-- A Python value as it appears in records, metadata and JSON documents:
`vnull` is `None`, `str`/`int` are primitives, `vlist` and `vdict` are the
container types produced by `json.loads`, and `junk` stands for any other
(non-JSON-serializable) object. -/
inductive Val where
  | vnull : Val
  | str : String → Val
  | int : Int → Val
  | vlist : List Val → Val
  | vdict : List (String × Val) → Val
  | junk : Val
deriving Repr

/-- A Python dictionary with string keys, in insertion order. -/
abbrev Dict := List (String × Val)

/-- Python `d.get(k)`: the value at the first matching key, if present. -/
def dictGet (d : Dict) (k : String) : Option Val :=
  (d.find? (fun p => p.1 == k)).map (fun p => p.2)

/-- Python `d.get(k, default)`. -/
def dictGetD (d : Dict) (k : String) (v : Val) : Val :=
  (dictGet d k).getD v

/-- Python `d[k] = v`: overwrite in place if the key exists (keeping its
position), otherwise append at the end. -/
def dictSet (d : Dict) (k : String) (v : Val) : Dict :=
  if (d.find? (fun p => p.1 == k)).isSome then
    d.map (fun p => if p.1 == k then (k, v) else p)
  else
    d ++ [(k, v)]

/-- Python truthiness of a `Val`. -/
def truthy : Val → Bool
  | .vnull => false
  | .str s => !(s == "")
  | .int n => !(n == 0)
  | .vlist l => !l.isEmpty
  | .vdict l => !l.isEmpty
  | .junk => true

/-- Python `a or b` on values. -/
def pyOr (a b : Val) : Val := if truthy a then a else b

/-- ASCII lowercasing of one character (model of `str.lower`). -/
def lowerChar (c : Char) : Char :=
  if 'A' ≤ c && c ≤ 'Z' then Char.ofNat (c.toNat + 32) else c

/-- Python `s.lower()`. -/
def pyLower (s : String) : String := String.mk (s.data.map lowerChar)

/-- Python `s.replace(pat, new)` for a single-character pattern and
replacement, as used by the tokenizer. -/
def replaceChar (pat new : Char) (s : String) : String :=
  String.mk (s.data.map (fun c => if c == pat then new else c))

/-- Worker for `str.split()`: collect maximal runs of non-whitespace
characters (the accumulator holds the current run, reversed). -/
def splitWsAux : List Char → List Char → List String
  | [], acc => if acc.isEmpty then [] else [String.mk acc.reverse]
  | c :: rest, acc =>
    if c.isWhitespace then
      if acc.isEmpty then splitWsAux rest []
      else String.mk acc.reverse :: splitWsAux rest []
    else splitWsAux rest (c :: acc)

/-- Python `s.split()` with no argument: the maximal whitespace-separated
words, with no empty entries. -/
def pySplitWs (s : String) : List String := splitWsAux s.data []

/-- Python `s.strip()`: drop whitespace from both ends. -/
def pyStrip (s : String) : String :=
  String.mk (((s.data.dropWhile Char.isWhitespace).reverse.dropWhile
    Char.isWhitespace).reverse)

/-- Tokenize one string the way `_select_context_mems.tokenize` does:
lowercase, replace commas and periods by spaces, split on whitespace and
keep the words of length at least 3. -/
def tokenizeStr (s : String) : List String :=
  (pySplitWs (replaceChar '.' ' ' (replaceChar ',' ' ' (pyLower s)))).filter
    (fun w => decide (3 ≤ w.length))

/-- The recursive `tokenize` helper of `_select_context_mems`: strings are
tokenized, lists are tokenized elementwise, every other value yields no
tokens. -/
def tokenize : Val → List String
  | .str s => tokenizeStr s
  | .vlist l => l.attach.flatMap (fun v => tokenize v.1)
  | _ => []
decreasing_by
  have h := List.sizeOf_lt_of_mem v.2
  simp only [Val.vlist.sizeOf_spec]
  omega

/-- The record-token set built by `_select_context_mems`: the union of the
tokens of the fields `transcription`, `description`, `text`, `summary`. -/
def recordTokens (record : Dict) : Finset String :=
  (["transcription", "description", "text", "summary"].flatMap
    (fun k => tokenize ((dictGet record k).getD .vnull))).toFinset

/-- The text of a stored memory: `mem.get("memory") or mem.get("text") or ""`. -/
def memText (mem : Dict) : Val :=
  pyOr (pyOr ((dictGet mem "memory").getD .vnull) ((dictGet mem "text").getD .vnull))
    (.str "")

/-- The token-overlap score of a candidate memory text against the record
token set. -/
def overlapScore (rt : Finset String) (text : Val) : Nat :=
  (rt ∩ (tokenize text).toFinset).card

/-- The `scored` list of `_select_context_mems`: each memory whose text has
a positive overlap score contributes its `(score, text)` pair, in input
order. -/
def scoredMems (record : Dict) (memories : List Dict) : List (Nat × Val) :=
  memories.filterMap (fun mem =>
    let text := memText mem
    let score := overlapScore (recordTokens record) text
    if 0 < score then some (score, text) else none)

/-- The comparison used to model `scored.sort(key=lambda t: t[0], reverse=True)`:
a stable sort placing higher scores first. -/
def scoreRel (a b : Nat × Val) : Prop := b.1 ≤ a.1

instance : DecidableRel scoreRel := fun a b => Nat.decLe b.1 a.1

instance : IsTotal (Nat × Val) scoreRel := ⟨fun a b => Nat.le_total b.1 a.1⟩

instance : IsTrans (Nat × Val) scoreRel := ⟨fun _ _ _ h₁ h₂ => Nat.le_trans h₂ h₁⟩

/-- The scored list after the stable descending sort. -/
def sortedScored (record : Dict) (memories : List Dict) : List (Nat × Val) :=
  (scoredMems record memories).insertionSort scoreRel

/-- `_select_context_mems(record, memories, max_items)` from `pipeline.py`
(the Python default for `max_items` is 3): score every memory by token
overlap, drop zero scores, sort stably by score descending, return the
texts of the first `max_items` entries. -/
def _select_context_mems (record : Dict) (memories : List Dict) (max_items : Nat) :
    List Val :=
  ((sortedScored record memories).take max_items).map (fun t => t.2)

/-- Escape of a character inside a JSON string literal (model of the
escaping `json.dumps` performs; `ensure_ascii=False` leaves other
characters alone). -/
def jsonEscapeChar (c : Char) : String :=
  if c = '"' then "\\\"" else if c = '\\' then "\\\\" else String.singleton c

/-- Escape of a whole string for a JSON string literal. -/
def jsonEscape (s : String) : String :=
  String.join (s.toList.map jsonEscapeChar)

/-- Model of `json.dumps(v, ensure_ascii=False)`: `none` when the value
contains a non-serializable object (Python raises `TypeError` there). -/
def dumps : Val → Option String
  | .vnull => some "null"
  | .str s => some ("\"" ++ jsonEscape s ++ "\"")
  | .int n => some (toString n)
  | .junk => none
  | .vlist l =>
    (l.attach.mapM (fun v => dumps v.1)).map
      (fun parts => "[" ++ String.intercalate ", " parts ++ "]")
  | .vdict l =>
    (l.attach.mapM (fun p =>
        (dumps p.1.2).map (fun s => "\"" ++ jsonEscape p.1.1 ++ "\": " ++ s))).map
      (fun parts => "\x7b" ++ String.intercalate ", " parts ++ "\x7d")
decreasing_by
  · have h := List.sizeOf_lt_of_mem v.2
    simp only [Val.vlist.sizeOf_spec]
    omega
  · obtain ⟨x, hx⟩ := p
    obtain ⟨a, b⟩ := x
    have h := List.sizeOf_lt_of_mem hx
    simp only [Val.vdict.sizeOf_spec, Prod.mk.sizeOf_spec] at h ⊢
    omega

/-- The body of the two scanning loops of `_record_to_plain_text`: return
the stripped form of the first value that is a string with non-empty
strip, scanning left to right. -/
def firstStrippedStr : List Val → Option String
  | [] => none
  | .str s :: rest => if pyStrip s == "" then firstStrippedStr rest else some (pyStrip s)
  | _ :: rest => firstStrippedStr rest

/-- `_record_to_plain_text(record)` from `pipeline.py`: try the candidate
fields `transcription`, `description`, `text`, `summary` in that order,
then every value of the record in insertion order, returning the first
stripped non-empty string; otherwise the JSON dump of the record, or `""`
when the dump fails. -/
def _record_to_plain_text (record : Dict) : String :=
  let candidates : List Val :=
    [(dictGet record "transcription").getD .vnull,
     (dictGet record "description").getD .vnull,
     (dictGet record "text").getD .vnull,
     (dictGet record "summary").getD .vnull]
  match firstStrippedStr candidates with
  | some s => s
  | none =>
    match firstStrippedStr (record.map (fun p => p.2)) with
    | some s => s
    | none => (dumps (.vdict record)).getD ""

/-- An aware or naive datetime as produced by `datetime.fromisoformat`:
a Gregorian date, a time of day, and an optional fixed UTC offset in
minutes (the timezone). -/
structure PyDateTime where
  year : Int
  month : Nat
  day : Nat
  hour : Nat
  minute : Nat
  second : Nat
  offsetMinutes : Option Int
deriving Repr, DecidableEq

/-- Gregorian leap-year test. -/
def isLeap (y : Int) : Bool := (y % 4 == 0 && !(y % 100 == 0)) || y % 400 == 0

/-- Number of days in a month of a given year. -/
def daysInMonth (y : Int) (m : Nat) : Nat :=
  if m == 2 then (if isLeap y then 29 else 28)
  else if m == 4 || m == 6 || m == 9 || m == 11 then 30
  else 31

/-- The calendar day after `(y, m, d)`. -/
def nextDate : Int × Nat × Nat → Int × Nat × Nat
  | (y, m, d) =>
    if d < daysInMonth y m then (y, m, d + 1)
    else if m < 12 then (y, m + 1, 1)
    else (y + 1, 1, 1)

/-- The calendar day before `(y, m, d)`. -/
def prevDate : Int × Nat × Nat → Int × Nat × Nat
  | (y, m, d) =>
    if 1 < d then (y, m, d - 1)
    else if 1 < m then (y, m - 1, daysInMonth y (m - 1))
    else (y - 1, 12, 31)

/-- Shift a date by at most one day (UTC offsets are under 24 hours, so
`astimezone(timezone.utc)` moves the date by at most one day). -/
def shiftDate (d : Int × Nat × Nat) (k : Int) : Int × Nat × Nat :=
  if k > 0 then nextDate d else if k < 0 then prevDate d else d

/-- The numeric value of a decimal digit character, if it is one. -/
def digitVal (c : Char) : Option Nat :=
  if c.isDigit then some (c.toNat - 48) else none

/-- Parse exactly two decimal digits. -/
def parse2 : List Char → Option (Nat × List Char)
  | c1 :: c2 :: rest => do
    let d1 ← digitVal c1
    let d2 ← digitVal c2
    pure (d1 * 10 + d2, rest)
  | _ => none

/-- Parse exactly four decimal digits. -/
def parse4 : List Char → Option (Nat × List Char)
  | c1 :: c2 :: c3 :: c4 :: rest => do
    let d1 ← digitVal c1
    let d2 ← digitVal c2
    let d3 ← digitVal c3
    let d4 ← digitVal c4
    pure (((d1 * 10 + d2) * 10 + d3) * 10 + d4, rest)
  | _ => none

/-- Consume an expected literal character. -/
def expectChar (c : Char) : List Char → Option (List Char)
  | c' :: rest => if c' == c then some rest else none
  | [] => none

/-- Parse the `HH[:MM[:SS]]` part of an ISO time. -/
def parseTime (cs : List Char) : Option ((Nat × Nat × Nat) × List Char) := do
  let (h, cs) ← parse2 cs
  if h ≥ 24 then none else
  match expectChar ':' cs with
  | none => pure ((h, 0, 0), cs)
  | some cs2 => do
    let (mi, cs3) ← parse2 cs2
    if mi ≥ 60 then none else
    match expectChar ':' cs3 with
    | none => pure ((h, mi, 0), cs3)
    | some cs4 => do
      let (se, cs5) ← parse2 cs4
      if se ≥ 60 then none else pure ((h, mi, se), cs5)

/-- Parse the trailing UTC-offset part: nothing (a naive datetime), `Z`,
or `±HH:MM`. -/
def parseOffset : List Char → Option (Option Int)
  | [] => some none
  | ['Z'] => some (some 0)
  | c :: cs =>
    if c == '+' || c == '-' then do
      let (oh, cs2) ← parse2 cs
      let cs3 ← expectChar ':' cs2
      let (om, cs4) ← parse2 cs3
      if cs4 = [] && oh ≤ 23 && om ≤ 59 then
        let total : Int := (oh : Int) * 60 + (om : Int)
        some (some (if c == '-' then -total else total))
      else none
    else none

/-- Model of `datetime.fromisoformat` on the ISO-8601 profile the pipeline
handles: `YYYY-MM-DD`, optionally followed by `T`- or space-separated
`HH[:MM[:SS]]` and an optional `Z` or `±HH:MM` offset.  `none` models a
raised `ValueError`. -/
def fromisoformat (s : String) : Option PyDateTime := do
  let cs := s.toList
  let (y, cs) ← parse4 cs
  let cs ← expectChar '-' cs
  let (mo, cs) ← parse2 cs
  let cs ← expectChar '-' cs
  let (d, cs) ← parse2 cs
  if y < 1 then none else
  if mo < 1 || mo > 12 then none else
  if d < 1 || d > daysInMonth (y : Int) mo then none else
  match cs with
  | [] => pure ⟨(y : Int), mo, d, 0, 0, 0, none⟩
  | sep :: rest =>
    if sep == 'T' || sep == ' ' then do
      let ((h, mi, se), rest2) ← parseTime rest
      let off ← parseOffset rest2
      pure ⟨(y : Int), mo, d, h, mi, se, off⟩
    else none

/-- Left-pad a natural number to two digits. -/
def pad2 (n : Nat) : String :=
  if n < 10 then "0" ++ toString n else toString n

/-- Left-pad a year to four digits. -/
def pad4 (y : Int) : String :=
  let s := toString y.toNat
  String.mk (List.replicate (4 - s.length) '0') ++ s

/-- Model of `dt.astimezone(timezone.utc).isoformat()` for an aware
datetime with offset `off` minutes: shift the wall-clock time to UTC
(rolling the date when needed) and format it with a `+00:00` suffix.
`none` models the `OverflowError` Python raises when the result leaves
the supported year range 1–9999. -/
def astimezoneUTCIso (dt : PyDateTime) (off : Int) : Option String :=
  let total : Int := (dt.hour : Int) * 60 + (dt.minute : Int) - off
  let dayShift : Int := total / 1440 - (if total % 1440 < 0 then 1 else 0)
  let minOfDay : Int := total - dayShift * 1440
  let (y, m, d) := shiftDate (dt.year, dt.month, dt.day) dayShift
  if y < 1 || y > 9999 then none
  else
    some (pad4 y ++ "-" ++ pad2 m ++ "-" ++ pad2 d ++ "T" ++
      pad2 (minOfDay / 60).toNat ++ ":" ++ pad2 (minOfDay % 60).toNat ++ ":" ++
      pad2 dt.second ++ "+00:00")

/-- `_to_utc(dt_str)` from `connectors/calendar.py`: parse the string as an
ISO-8601 datetime; when it parses and carries a timezone, return the UTC
ISO form; when parsing (or the conversion) raises, or the datetime is
naive, return the input unchanged. -/
def _to_utc (dt_str : String) : String :=
  match fromisoformat dt_str with
  | none => dt_str
  | some dt =>
    match dt.offsetMinutes with
    | none => dt_str
    | some off =>
      match astimezoneUTCIso dt off with
      | none => dt_str
      | some s => s

/-- `_to_utc` lifted to record values: applied to a non-string it models
the `TypeError` raised by `fromisoformat` being caught and the original
value returned. -/
def toUtcVal : Val → Val
  | .str s => .str (_to_utc s)
  | v => v

/-- `IngestConfig` from `pipeline.py`. -/
structure IngestConfig where
  model : String
  timeout : Nat
  dry_run : Bool
  limit : Option Nat
  user_id : String
  verbose : Bool
  enrich : Bool
deriving Repr

/-- The dataclass defaults of `IngestConfig`. -/
def defaultConfig : IngestConfig :=
  ⟨"grok-4-1-fast-reasoning", 60, false, none, "demo_user", false, true⟩

/-- One call to `mem.add_memory` as issued by `ingest_file`: the resolved
user id, the text to store, the metadata dictionary passed along, and the
`infer` flag. -/
structure AddCall where
  user_id : Val
  text : String
  metadata : Dict
  infer : Bool
deriving Repr

/-- The external collaborators of the pipeline, as response functions: the
memory service (`get_memories`, `add_memory`) and the Grok chat endpoint
(`sample_content` returns `resp.content`, possibly absent).  An `.error`
result models a raised exception. -/
structure Env where
  get_memories : Val → Except Unit (List Dict)
  sample_content : Dict → String → List Val → Except Unit (Option String)
  add_memory : AddCall → Except Unit Unit

/-- `grok_enrich` from `pipeline.py`, with the chat transport abstracted by
`env.sample_content`: the completion's content, `None` coerced to the empty
string, stripped of surrounding whitespace. -/
def grok_enrich (env : Env) (record : Dict) (context_note : String)
    (prior_mems : List Val) : Except Unit String :=
  (env.sample_content record context_note prior_mems).map
    (fun content => pyStrip (content.getD ""))

/-- The connector note built in `ingest_file` for the calendar connector. -/
def calendarNote : String :=
  "Connector: calendar. Include start_utc and end_utc if present, keep it to one short factual sentence."

/-- The generic connector note built in `ingest_file`. -/
def genericNote (connector : String) : String :=
  "Connector: " ++ connector ++ ". Keep it factual and concise."

/-- The mutable loop state of one `ingest_file` run, together with the
trace of external calls made so far.  `occTrace` records, for each record
that produced a text, the pair of that text and the `occurrence_count`
value written into its metadata. -/
structure LoopState where
  processed : Nat
  stored : Nat
  occurrence_counts : String → Nat
  memories_cache : Option (List Dict)
  fetchTrace : List Val
  occTrace : List (String × Nat)
  addTrace : List AddCall

/-- The state at the top of `ingest_file`, before any record is seen. -/
def initState : LoopState :=
  ⟨0, 0, fun _ => 0, none, [], [], []⟩

/-- The user-id resolution of `ingest_file`:
`cfg.user_id or metadata.get("user_id") or "demo_user"`. -/
def resolve_user_id (cfg : IngestConfig) (metadata : Dict) : Val :=
  pyOr (pyOr (.str cfg.user_id) ((dictGet metadata "user_id").getD .vnull))
    (.str "demo_user")

/-- The lazy memory-list fetch of `ingest_file`: on the first record the
list is requested from the service and cached (a fetch failure is
swallowed and caches the empty list); afterwards the cache is reused. -/
def fetch_phase (env : Env) (st : LoopState) (uid : Val) : LoopState :=
  match st.memories_cache with
  | some _ => st
  | none =>
    match env.get_memories uid with
    | .ok ms =>
      { st with memories_cache := some ms, fetchTrace := st.fetchTrace ++ [uid] }
    | .error _ =>
      { st with memories_cache := some [], fetchTrace := st.fetchTrace ++ [uid] }

/-- The text derivation of `ingest_file`: Grok enrichment with the
connector note when `cfg.enrich` is set, the deterministic raw-text
fallback otherwise.  An `.error` is a transport failure that propagates. -/
def derive_text (connector : String) (cfg : IngestConfig) (env : Env)
    (record : Dict) (prior_mems : List Val) : Except Unit String :=
  if cfg.enrich then
    let note := if connector == "calendar" then calendarNote else genericNote connector
    grok_enrich env record note prior_mems
  else
    .ok (_record_to_plain_text record)

/-- The store phase of one loop iteration, reached when a non-empty text
was derived: bump the occurrence counter, write `occurrence_count` into the
metadata, then either stop at the dry-run report or issue the store call
with the four persisted metadata fields.  The returned flag is `false` when
the iteration raised (a missing `source` key or a failed store call). -/
def store_phase (connector : String) (cfg : IngestConfig) (env : Env)
    (st : LoopState) (uid : Val) (metadata : Dict) (text : String) :
    LoopState × Bool :=
  let n := st.occurrence_counts text + 1
  let st := { st with
    occurrence_counts := fun t => if t == text then n else st.occurrence_counts t,
    occTrace := st.occTrace ++ [(text, n)] }
  let metadata := dictSet metadata "occurrence_count" (.int n)
  match dictGet metadata "source" with
  | none => (st, false)
  | some src =>
    if cfg.dry_run then (st, true)
    else
      let call : AddCall :=
        ⟨uid, text,
          [("connector", .str connector),
           ("source", src),
           ("record_id", (dictGet metadata "record_id").getD .vnull),
           ("timestamp", (dictGet metadata "timestamp").getD .vnull)],
          false⟩
      let st := { st with addTrace := st.addTrace ++ [call] }
      match env.add_memory call with
      | .error _ => (st, false)
      | .ok _ => ({ st with stored := st.stored + 1 }, true)

/-- One iteration of the `for record, metadata in ...` loop of
`ingest_file`.  The returned flag is `false` when the iteration raised, in
which case the loop aborts and the exception propagates. -/
def ingest_step (connector : String) (cfg : IngestConfig) (env : Env)
    (st : LoopState) (rm : Dict × Dict) : LoopState × Bool :=
  let record := rm.1
  let st := { st with processed := st.processed + 1 }
  let uid := resolve_user_id cfg rm.2
  let metadata := dictSet rm.2 "user_id" uid
  let st := fetch_phase env st uid
  let prior_mems := _select_context_mems record (st.memories_cache.getD []) 3
  match derive_text connector cfg env record prior_mems with
  | .error _ => (st, false)
  | .ok text =>
    if text == "" then (st, true)
    else store_phase connector cfg env st uid metadata text

/-- The record loop of `ingest_file`, threading the loop state; stops early
(with flag `false`) when an iteration raises. -/
def ingest_loop (connector : String) (cfg : IngestConfig) (env : Env) :
    List (Dict × Dict) → LoopState → LoopState × Bool
  | [], st => (st, true)
  | rm :: rest, st =>
    match ingest_step connector cfg env st rm with
    | (st', true) => ingest_loop connector cfg env rest st'
    | (st', false) => (st', false)

/-- `_iter_limited(items, limit)` from `pipeline.py`. -/
def _iter_limited (items : List α) (limit : Option Nat) : List α :=
  match limit with
  | none => items
  | some n => items.take n

/-- `ingest_file(connector, path, mem, cfg)` from `pipeline.py`, with the
file contents already loaded into the `records` list and the services
abstracted by `env`.  The result is the final loop state (whose
`processed` and `stored` fields are the returned pair) and a flag that is
`false` when the run raised part-way. -/
def ingest_file (connector : String) (records : List (Dict × Dict))
    (cfg : IngestConfig) (env : Env) : LoopState × Bool :=
  ingest_loop connector cfg env (_iter_limited records cfg.limit) initState

/-- The `for p in paths` loop of `ingest_paths`, carrying the running
totals; an exception from `ingest_file` propagates (`none`). -/
def ingest_paths_loop (connector : String) (cfg : IngestConfig) (env : Env) :
    List (List (Dict × Dict)) → Nat → Nat → Option (Nat × Nat)
  | [], tp, ts => some (tp, ts)
  | f :: rest, tp, ts =>
    match ingest_file connector f cfg env with
    | (st, true) => ingest_paths_loop connector cfg env rest (tp + st.processed) (ts + st.stored)
    | (_, false) => none

/-- `ingest_paths` from `pipeline.py`: run `ingest_file` over each file in
order, summing the processed/stored pairs into running totals. -/
def ingest_paths (connector : String) (files : List (List (Dict × Dict)))
    (cfg : IngestConfig) (env : Env) : Option (Nat × Nat) :=
  ingest_paths_loop connector cfg env files 0 0

/-- View a value as a dictionary (the loader's `ev.get("start", {})`
results are used as dictionaries). -/
def asDict : Val → Dict
  | .vdict l => l
  | _ => []

/-- One iteration of `load_calendar_file` from `connectors/calendar.py`:
build the `(record, metadata)` pair for the event `ev` at index `idx` of
the file named `fileName` (whose stem is `fileStem`). -/
def load_calendar_event (fileName fileStem : String) (idx : Nat) (ev : Dict) :
    Dict × Dict :=
  let start := asDict (dictGetD ev "start" (.vdict []))
  let stop := asDict (dictGetD ev "end" (.vdict []))
  let start_dt := pyOr ((dictGet start "dateTime").getD .vnull)
    ((dictGet start "date").getD .vnull)
  let end_dt := pyOr ((dictGet stop "dateTime").getD .vnull)
    ((dictGet stop "date").getD .vnull)
  let record : Dict :=
    [("summary", (dictGet ev "summary").getD .vnull),
     ("description", (dictGet ev "description").getD .vnull),
     ("location", (dictGet ev "location").getD .vnull),
     ("start_utc", if truthy start_dt then toUtcVal start_dt else .vnull),
     ("end_utc", if truthy end_dt then toUtcVal end_dt else .vnull),
     ("attendees", (dictGet ev "attendees").getD .vnull),
     ("organizer", (dictGet ev "organizer").getD .vnull),
     ("calendar_name", (dictGet ev "calendar_name").getD .vnull)]
  let metadata : Dict :=
    [("user_id", .str fileStem),
     ("source", .str fileName),
     ("record_id", dictGetD ev "event_id" (.str ("event-" ++ toString idx))),
     ("timestamp", pyOr ((dictGet record "start_utc").getD .vnull)
        ((dictGet record "end_utc").getD .vnull)),
     ("start_utc", (dictGet record "start_utc").getD .vnull),
     ("end_utc", (dictGet record "end_utc").getD .vnull)]
  (record, metadata)

/-- `load_calendar_file` from `connectors/calendar.py`, with the JSON file
already parsed into the top-level dictionary `data`: enumerate
`data.get("events", [])` and build one `(record, metadata)` pair per
event. -/
def load_calendar_file (data : Dict) (fileName fileStem : String) :
    List (Dict × Dict) :=
  let events := match dictGetD data "events" (.vlist []) with
    | .vlist l => l
    | _ => []
  events.enum.map (fun p => load_calendar_event fileName fileStem p.1 (asDict p.2))

/-- The parsed contents of the one-event calendar file of the end-to-end
scenario. -/
def dentistData : Dict :=
  [("events", .vlist
    [.vdict
      [("summary", .str "Dentist"),
       ("start", .vdict [("dateTime", .str "2025-03-01T09:00:00Z")]),
       ("end", .vdict [("dateTime", .str "2025-03-01T10:00:00Z")])]])]

/-- The stripped form of a value when it is a string with non-empty strip. -/
def stripNonEmpty : Val → Option String
  | .str s => if pyStrip s == "" then none else some (pyStrip s)
  | _ => none

/-- The raw-text extraction policy as the specification words it: the first
of the fields `transcription`, `description`, `text`, `summary` that is a
non-empty string; else the first non-empty string-valued field of the
record in iteration order; else the JSON serialization of the whole
record, or the empty string if serialization fails. -/
def plain_text_priority_spec (record : Dict) : String :=
  match ["transcription", "description", "text", "summary"].findSome?
      (fun k => (dictGet record k).bind stripNonEmpty) with
  | some s => s
  | none =>
    match (record.map (fun p => p.2)).findSome? stripNonEmpty with
    | some s => s
    | none => (dumps (.vdict record)).getD ""

lemma firstStrippedStr_eq_findSome : ∀ l : List Val,
    firstStrippedStr l = l.findSome? stripNonEmpty := by
  intro l
  induction l with
  | nil => rfl
  | cons v rest ih =>
    cases v with
    | str s =>
      simp only [firstStrippedStr, List.findSome?, stripNonEmpty]
      by_cases h : pyStrip s == ""
      · simp [h, ih]
      · simp [h]
    | vnull => simpa [firstStrippedStr, List.findSome?, stripNonEmpty] using ih
    | int n => simpa [firstStrippedStr, List.findSome?, stripNonEmpty] using ih
    | vlist a => simpa [firstStrippedStr, List.findSome?, stripNonEmpty] using ih
    | vdict a => simpa [firstStrippedStr, List.findSome?, stripNonEmpty] using ih
    | junk => simpa [firstStrippedStr, List.findSome?, stripNonEmpty] using ih

lemma stripNonEmpty_getD_vnull (o : Option Val) :
    stripNonEmpty (o.getD .vnull) = o.bind stripNonEmpty := by
  cases o with
  | none => rfl
  | some v => rfl

/-- C4.  Raw-text extraction tries `transcription`, `description`, `text`,
`summary` in that fixed order and returns the first non-empty string; if
none is, it returns the first non-empty string-valued field of the record
in iteration order; if still none, the JSON serialization of the record,
or the empty string when serialization fails (`_record_to_plain_text`
agrees with that priority policy on every record).  In particular the
record with an empty `summary` and `text` equal to `"buy milk"` yields
`"buy milk"`. -/
theorem record_to_plain_text_follows_priority_spec :
    (∀ record : Dict, _record_to_plain_text record = plain_text_priority_spec record) ∧
    _record_to_plain_text [("summary", .str ""), ("text", .str "buy milk")] = "buy milk" := by
  constructor
  · intro record
    unfold _record_to_plain_text plain_text_priority_spec
    simp only [firstStrippedStr_eq_findSome, List.findSome?, stripNonEmpty_getD_vnull]
  · rfl

/-- C3.  The calendar time normalizer maps
`"2024-01-01T10:00:00+02:00"` to `"2024-01-01T08:00:00+00:00"`, and on
every string that fails ISO-8601 parsing it returns the input unchanged
(`_to_utc` is a total function of the input string, so it never raises). -/
theorem to_utc_example_and_unparsable_id :
    _to_utc "2024-01-01T10:00:00+02:00" = "2024-01-01T08:00:00+00:00" ∧
    (∀ s : String, fromisoformat s = none → _to_utc s = s) := by
  constructor
  · rfl
  · intro s h
    unfold _to_utc
    rw [h]

lemma mem_scoredMems {record : Dict} {memories : List Dict} {p : Nat × Val}
    (hp : p ∈ scoredMems record memories) :
    p.1 = overlapScore (recordTokens record) p.2 ∧ 0 < p.1 := by
  unfold scoredMems at hp
  obtain ⟨mem, _, hf⟩ := List.mem_filterMap.mp hp
  simp only at hf
  split at hf
  · cases hf
    exact ⟨rfl, by assumption⟩
  · cases hf

lemma mem_sortedScored {record : Dict} {memories : List Dict} {p : Nat × Val}
    (hp : p ∈ sortedScored record memories) :
    p.1 = overlapScore (recordTokens record) p.2 ∧ 0 < p.1 :=
  mem_scoredMems ((List.mem_insertionSort scoreRel).mp hp)

/-- C1.  For every record, memory list and `max_items` (the Python default
is 3), `_select_context_mems` returns at most `max_items` texts, every
returned text has a positive token-overlap score with the record's textual
fields, and when the record's textual fields tokenize to the empty set the
result is empty.  The function is total, so it never raises. -/
theorem select_context_mems_bounds :
    ∀ (record : Dict) (memories : List Dict) (max_items : Nat),
    (_select_context_mems record memories max_items).length ≤ max_items ∧
    (∀ t ∈ _select_context_mems record memories max_items,
      0 < overlapScore (recordTokens record) t) ∧
    (recordTokens record = ∅ →
      _select_context_mems record memories max_items = []) := by
  intro record memories max_items
  refine ⟨?_, ?_, ?_⟩
  · unfold _select_context_mems
    rw [List.length_map, List.length_take]
    exact min_le_left _ _
  · intro t ht
    unfold _select_context_mems at ht
    obtain ⟨p, hp, hpt⟩ := List.mem_map.mp ht
    obtain ⟨h1, h2⟩ := mem_sortedScored (List.mem_of_mem_take hp)
    rw [← hpt, ← h1]
    exact h2
  · intro hrt
    unfold _select_context_mems sortedScored
    have hs : scoredMems record memories = [] := by
      apply List.filterMap_eq_nil_iff.mpr
      intro mem _
      simp only
      have : overlapScore (recordTokens record) (memText mem) = 0 := by
        unfold overlapScore
        rw [hrt]
        simp
      rw [this]
      simp
    rw [hs]
    simp [List.insertionSort]

lemma filter_orderedInsert_score (a : Nat × Val) (l : List (Nat × Val)) (s : Nat) :
    ((l.orderedInsert scoreRel a).filter (fun p => p.1 == s))
      = ((a :: l).filter (fun p => p.1 == s)) := by
  rw [List.orderedInsert_eq_take_drop]
  rw [List.filter_append]
  by_cases ha : a.1 = s
  · have htw : ((l.takeWhile fun b => decide ¬scoreRel a b).filter (fun p => p.1 == s)) = [] := by
      apply List.filter_eq_nil_iff.mpr
      intro x hx
      have hx2 := List.mem_takeWhile_imp hx
      have hlt : a.1 < x.1 := by
        by_contra hle
        exact (of_decide_eq_true hx2) (by exact Nat.le_of_not_lt hle)
      simp only [beq_iff_eq]
      omega
    rw [htw]
    have hl : (l.filter (fun p => p.1 == s))
        = ((l.takeWhile fun b => decide ¬scoreRel a b).filter (fun p => p.1 == s)) ++
          ((l.dropWhile fun b => decide ¬scoreRel a b).filter (fun p => p.1 == s)) := by
      rw [← List.filter_append, List.takeWhile_append_dropWhile]
    simp only [List.filter_cons, ha, beq_self_eq_true, if_true]
    rw [hl, htw]
    simp
  · have hfa : ((a :: l).filter (fun p => p.1 == s)) = l.filter (fun p => p.1 == s) := by
      simp [List.filter_cons, ha]
    rw [hfa]
    conv_rhs => rw [← List.takeWhile_append_dropWhile (p := fun b => decide ¬scoreRel a b) (l := l)]
    rw [List.filter_append]
    congr 1
    simp [List.filter_cons, ha]

lemma filter_insertionSort_score (l : List (Nat × Val)) (s : Nat) :
    ((l.insertionSort scoreRel).filter (fun p => p.1 == s))
      = (l.filter (fun p => p.1 == s)) := by
  induction l with
  | nil => rfl
  | cons a l ih =>
    rw [List.insertionSort, filter_orderedInsert_score]
    simp only [List.filter_cons]
    rw [ih]

/-- C8.  Context selection is deterministic (a pure function of its
arguments), its output is ordered by token-overlap score descending, and
the stable sort keeps the relative input order of equal-score entries: for
every score `s`, the equal-score slice of the sorted scored list is
exactly the equal-score slice of the unsorted scored list. -/
theorem select_context_mems_deterministic_sorted_stable :
    ∀ (record : Dict) (memories : List Dict) (max_items : Nat),
    _select_context_mems record memories max_items
      = _select_context_mems record memories max_items ∧
    (_select_context_mems record memories max_items).Pairwise
      (fun a b => overlapScore (recordTokens record) b
        ≤ overlapScore (recordTokens record) a) ∧
    (∀ s : Nat, ((sortedScored record memories).filter (fun p => p.1 == s))
      = ((scoredMems record memories).filter (fun p => p.1 == s))) := by
  intro record memories max_items
  refine ⟨rfl, ?_, fun s => filter_insertionSort_score _ s⟩
  unfold _select_context_mems
  rw [List.pairwise_map]
  have hsorted : (sortedScored record memories).Pairwise scoreRel :=
    List.sorted_insertionSort scoreRel (scoredMems record memories)
  have htake : ((sortedScored record memories).take max_items).Pairwise scoreRel :=
    hsorted.sublist (List.take_sublist _ _)
  refine htake.imp_of_mem ?_
  intro a b ha hb hr
  have ha2 := mem_sortedScored (List.mem_of_mem_take ha)
  have hb2 := mem_sortedScored (List.mem_of_mem_take hb)
  rw [← ha2.1, ← hb2.1]
  exact hr

lemma fetch_phase_some {st : LoopState} {c} (env : Env) (uid : Val)
    (h : st.memories_cache = some c) : fetch_phase env st uid = st := by
  unfold fetch_phase
  rw [h]

lemma fetch_phase_frame (env : Env) (st : LoopState) (uid : Val) :
    (fetch_phase env st uid).processed = st.processed ∧
    (fetch_phase env st uid).stored = st.stored ∧
    (fetch_phase env st uid).occTrace = st.occTrace ∧
    (fetch_phase env st uid).addTrace = st.addTrace ∧
    (fetch_phase env st uid).occurrence_counts = st.occurrence_counts := by
  unfold fetch_phase
  cases h : st.memories_cache with
  | some c => exact ⟨rfl, rfl, rfl, rfl, rfl⟩
  | none =>
    cases env.get_memories uid with
    | ok ms => exact ⟨rfl, rfl, rfl, rfl, rfl⟩
    | error e => exact ⟨rfl, rfl, rfl, rfl, rfl⟩

lemma fetch_phase_isSome (env : Env) (st : LoopState) (uid : Val) :
    ((fetch_phase env st uid).memories_cache).isSome = true := by
  unfold fetch_phase
  cases h : st.memories_cache with
  | some c => simpa using congrArg Option.isSome h
  | none =>
    cases env.get_memories uid with
    | ok ms => rfl
    | error e => rfl

lemma fetch_phase_trace_none {st : LoopState} (env : Env) (uid : Val)
    (h : st.memories_cache = none) :
    (fetch_phase env st uid).fetchTrace = st.fetchTrace ++ [uid] := by
  unfold fetch_phase
  rw [h]
  cases env.get_memories uid with
  | ok ms => rfl
  | error e => rfl

lemma store_phase_frame (connector : String) (cfg : IngestConfig) (env : Env)
    (st : LoopState) (uid : Val) (metadata : Dict) (text : String) :
    (store_phase connector cfg env st uid metadata text).1.processed = st.processed ∧
    (store_phase connector cfg env st uid metadata text).1.memories_cache
      = st.memories_cache ∧
    (store_phase connector cfg env st uid metadata text).1.fetchTrace
      = st.fetchTrace := by
  unfold store_phase
  simp only []
  split
  · exact ⟨rfl, rfl, rfl⟩
  · split
    · exact ⟨rfl, rfl, rfl⟩
    · split
      · exact ⟨rfl, rfl, rfl⟩
      · exact ⟨rfl, rfl, rfl⟩

lemma store_phase_stored (connector : String) (cfg : IngestConfig) (env : Env)
    (st : LoopState) (uid : Val) (metadata : Dict) (text : String) :
    st.stored ≤ (store_phase connector cfg env st uid metadata text).1.stored ∧
    (store_phase connector cfg env st uid metadata text).1.stored ≤ st.stored + 1 := by
  unfold store_phase
  simp only []
  split
  · exact ⟨Nat.le_refl _, Nat.le_succ _⟩
  · split
    · exact ⟨Nat.le_refl _, Nat.le_succ _⟩
    · split
      · exact ⟨Nat.le_refl _, Nat.le_succ _⟩
      · exact ⟨Nat.le_succ _, Nat.le_refl _⟩

lemma store_phase_dry (connector : String) (cfg : IngestConfig) (env : Env)
    (st : LoopState) (uid : Val) (metadata : Dict) (text : String)
    (h : cfg.dry_run = true) :
    (store_phase connector cfg env st uid metadata text).1.addTrace = st.addTrace ∧
    (store_phase connector cfg env st uid metadata text).1.stored = st.stored := by
  unfold store_phase
  simp only [h]
  split
  · exact ⟨rfl, rfl⟩
  · exact ⟨rfl, rfl⟩

lemma store_phase_occ (connector : String) (cfg : IngestConfig) (env : Env)
    (st : LoopState) (uid : Val) (metadata : Dict) (text : String) :
    (store_phase connector cfg env st uid metadata text).1.occTrace
      = st.occTrace ++ [(text, st.occurrence_counts text + 1)] ∧
    (store_phase connector cfg env st uid metadata text).1.occurrence_counts
      = fun t => if t == text then st.occurrence_counts text + 1
          else st.occurrence_counts t := by
  unfold store_phase
  simp only []
  split
  · exact ⟨rfl, rfl⟩
  · split
    · exact ⟨rfl, rfl⟩
    · split
      · exact ⟨rfl, rfl⟩
      · exact ⟨rfl, rfl⟩

lemma ingest_step_processed (connector : String) (cfg : IngestConfig) (env : Env)
    (st : LoopState) (rm : Dict × Dict) :
    (ingest_step connector cfg env st rm).1.processed = st.processed + 1 := by
  unfold ingest_step
  simp only []
  split
  · exact (fetch_phase_frame env _ _).1
  · split
    · exact (fetch_phase_frame env _ _).1
    · rw [(store_phase_frame _ _ env _ _ _ _).1]
      exact (fetch_phase_frame env _ _).1

lemma ingest_step_stored (connector : String) (cfg : IngestConfig) (env : Env)
    (st : LoopState) (rm : Dict × Dict) :
    st.stored ≤ (ingest_step connector cfg env st rm).1.stored ∧
    (ingest_step connector cfg env st rm).1.stored ≤ st.stored + 1 := by
  unfold ingest_step
  simp only []
  split
  · rw [(fetch_phase_frame env _ _).2.1]
    exact ⟨Nat.le_refl _, Nat.le_succ _⟩
  · split
    · rw [(fetch_phase_frame env _ _).2.1]
      exact ⟨Nat.le_refl _, Nat.le_succ _⟩
    · rename_i text heq hne
      refine ⟨Nat.le_trans (Nat.le_of_eq ((fetch_phase_frame env
          { st with processed := st.processed + 1 }
          (resolve_user_id cfg rm.2)).2.1).symm)
        (store_phase_stored connector cfg env
          (fetch_phase env { st with processed := st.processed + 1 }
            (resolve_user_id cfg rm.2))
          (resolve_user_id cfg rm.2)
          (dictSet rm.2 "user_id" (resolve_user_id cfg rm.2)) text).1, ?_⟩
      refine Nat.le_trans (store_phase_stored connector cfg env
          (fetch_phase env { st with processed := st.processed + 1 }
            (resolve_user_id cfg rm.2))
          (resolve_user_id cfg rm.2)
          (dictSet rm.2 "user_id" (resolve_user_id cfg rm.2)) text).2 ?_
      exact Nat.succ_le_succ (Nat.le_of_eq (fetch_phase_frame env
        { st with processed := st.processed + 1 } (resolve_user_id cfg rm.2)).2.1)

lemma ingest_step_dry (connector : String) (cfg : IngestConfig) (env : Env)
    (st : LoopState) (rm : Dict × Dict) (h : cfg.dry_run = true) :
    (ingest_step connector cfg env st rm).1.addTrace = st.addTrace ∧
    (ingest_step connector cfg env st rm).1.stored = st.stored := by
  unfold ingest_step
  simp only []
  split
  · exact ⟨(fetch_phase_frame env _ _).2.2.2.1, (fetch_phase_frame env _ _).2.1⟩
  · split
    · exact ⟨(fetch_phase_frame env _ _).2.2.2.1, (fetch_phase_frame env _ _).2.1⟩
    · rw [(store_phase_dry _ _ _ _ _ _ _ h).1, (store_phase_dry _ _ _ _ _ _ _ h).2,
        (fetch_phase_frame env _ _).2.2.2.1, (fetch_phase_frame env _ _).2.1]
      exact ⟨rfl, rfl⟩

lemma ingest_step_cache_some (connector : String) (cfg : IngestConfig) (env : Env)
    (st : LoopState) (rm : Dict × Dict) {c} (h : st.memories_cache = some c) :
    (ingest_step connector cfg env st rm).1.memories_cache = some c ∧
    (ingest_step connector cfg env st rm).1.fetchTrace = st.fetchTrace := by
  unfold ingest_step
  simp only []
  rw [fetch_phase_some env _ (by simpa using h)]
  split
  · exact ⟨h, rfl⟩
  · split
    · exact ⟨h, rfl⟩
    · rw [(store_phase_frame _ _ env _ _ _ _).2.1,
        (store_phase_frame _ _ env _ _ _ _).2.2]
      exact ⟨h, rfl⟩

lemma ingest_step_cache_isSome (connector : String) (cfg : IngestConfig) (env : Env)
    (st : LoopState) (rm : Dict × Dict) :
    ((ingest_step connector cfg env st rm).1.memories_cache).isSome = true := by
  unfold ingest_step
  simp only []
  split
  · exact fetch_phase_isSome env _ _
  · split
    · exact fetch_phase_isSome env _ _
    · rw [(store_phase_frame _ _ env _ _ _ _).2.1]
      exact fetch_phase_isSome env _ _

lemma ingest_step_fetchTrace_none (connector : String) (cfg : IngestConfig)
    (env : Env) (st : LoopState) (rm : Dict × Dict) (h : st.memories_cache = none) :
    (ingest_step connector cfg env st rm).1.fetchTrace
      = st.fetchTrace ++ [resolve_user_id cfg rm.2] := by
  unfold ingest_step
  simp only []
  split
  · exact fetch_phase_trace_none env _ (by simpa using h)
  · split
    · exact fetch_phase_trace_none env _ (by simpa using h)
    · rw [(store_phase_frame _ _ env _ _ _ _).2.2]
      exact fetch_phase_trace_none env _ (by simpa using h)

lemma ingest_loop_processed_le (connector : String) (cfg : IngestConfig) (env : Env) :
    ∀ (l : List (Dict × Dict)) (st : LoopState),
    (ingest_loop connector cfg env l st).1.processed ≤ st.processed + l.length := by
  intro l
  induction l with
  | nil => intro st; exact Nat.le_refl _
  | cons rm rest ih =>
    intro st
    simp only [ingest_loop]
    rcases h : ingest_step connector cfg env st rm with ⟨st', ok⟩
    have hp : st'.processed = st.processed + 1 := by
      rw [← ingest_step_processed connector cfg env st rm, h]
    cases ok with
    | true =>
      simp only [List.length_cons]
      calc (ingest_loop connector cfg env rest st').1.processed
          ≤ st'.processed + rest.length := ih st'
        _ = st.processed + rest.length + 1 := by omega
    | false =>
      simp only [List.length_cons]
      omega

lemma ingest_loop_processed_ok (connector : String) (cfg : IngestConfig) (env : Env) :
    ∀ (l : List (Dict × Dict)) (st : LoopState),
    (ingest_loop connector cfg env l st).2 = true →
    (ingest_loop connector cfg env l st).1.processed = st.processed + l.length := by
  intro l
  induction l with
  | nil => intro st _; rfl
  | cons rm rest ih =>
    intro st hok
    simp only [ingest_loop] at hok ⊢
    rcases h : ingest_step connector cfg env st rm with ⟨st', ok⟩
    have hp : st'.processed = st.processed + 1 := by
      rw [← ingest_step_processed connector cfg env st rm, h]
    rw [h] at hok
    cases ok with
    | true =>
      simp only [List.length_cons]
      rw [ih st' hok, hp]
      omega
    | false => simp at hok

lemma ingest_loop_stored_le_processed (connector : String) (cfg : IngestConfig)
    (env : Env) : ∀ (l : List (Dict × Dict)) (st : LoopState),
    st.stored ≤ st.processed →
    (ingest_loop connector cfg env l st).1.stored
      ≤ (ingest_loop connector cfg env l st).1.processed := by
  intro l
  induction l with
  | nil => intro st h; exact h
  | cons rm rest ih =>
    intro st hst
    simp only [ingest_loop]
    rcases h : ingest_step connector cfg env st rm with ⟨st', ok⟩
    have hp : st'.processed = st.processed + 1 := by
      rw [← ingest_step_processed connector cfg env st rm, h]
    have hs : st'.stored ≤ st.stored + 1 := by
      rw [show st' = (ingest_step connector cfg env st rm).1 by rw [h]]
      exact (ingest_step_stored connector cfg env st rm).2
    have hst' : st'.stored ≤ st'.processed := by omega
    cases ok with
    | true => exact ih st' hst'
    | false => exact hst'

lemma ingest_loop_dry (connector : String) (cfg : IngestConfig) (env : Env)
    (h : cfg.dry_run = true) : ∀ (l : List (Dict × Dict)) (st : LoopState),
    (ingest_loop connector cfg env l st).1.addTrace = st.addTrace ∧
    (ingest_loop connector cfg env l st).1.stored = st.stored := by
  intro l
  induction l with
  | nil => intro st; exact ⟨rfl, rfl⟩
  | cons rm rest ih =>
    intro st
    simp only [ingest_loop]
    rcases hstep : ingest_step connector cfg env st rm with ⟨st', ok⟩
    have hd : st'.addTrace = st.addTrace ∧ st'.stored = st.stored := by
      rw [show st' = (ingest_step connector cfg env st rm).1 by rw [hstep]]
      exact ingest_step_dry connector cfg env st rm h
    cases ok with
    | true =>
      refine ⟨?_, ?_⟩
      · rw [(ih st').1, hd.1]
      · rw [(ih st').2, hd.2]
    | false => exact hd

lemma ingest_loop_fetch_some (connector : String) (cfg : IngestConfig) (env : Env) :
    ∀ (l : List (Dict × Dict)) (st : LoopState) (c : List Dict),
    st.memories_cache = some c →
    (ingest_loop connector cfg env l st).1.fetchTrace = st.fetchTrace := by
  intro l
  induction l with
  | nil => intro st c _; rfl
  | cons rm rest ih =>
    intro st c hc
    simp only [ingest_loop]
    rcases hstep : ingest_step connector cfg env st rm with ⟨st', ok⟩
    have hcs : st'.memories_cache = some c ∧ st'.fetchTrace = st.fetchTrace := by
      rw [show st' = (ingest_step connector cfg env st rm).1 by rw [hstep]]
      exact ingest_step_cache_some connector cfg env st rm hc
    cases ok with
    | true => rw [ih st' c hcs.1, hcs.2]
    | false => exact hcs.2

lemma ingest_file_fetchTrace (connector : String) (records : List (Dict × Dict))
    (cfg : IngestConfig) (env : Env) :
    (ingest_file connector records cfg env).1.fetchTrace.length ≤ 1 ∧
    (_iter_limited records cfg.limit ≠ [] →
      (ingest_file connector records cfg env).1.fetchTrace.length = 1) := by
  unfold ingest_file
  cases hl : _iter_limited records cfg.limit with
  | nil => exact ⟨by simp [ingest_loop, initState], fun h => absurd rfl h⟩
  | cons rm rest =>
    have hlen : (ingest_loop connector cfg env (rm :: rest) initState).1.fetchTrace.length
        = 1 := by
      simp only [ingest_loop]
      rcases hstep : ingest_step connector cfg env initState rm with ⟨st', ok⟩
      have hft : st'.fetchTrace = [resolve_user_id cfg rm.2] := by
        rw [show st' = (ingest_step connector cfg env initState rm).1 by rw [hstep]]
        rw [ingest_step_fetchTrace_none connector cfg env initState rm rfl]
        rfl
      have hcs : (st'.memories_cache).isSome = true := by
        rw [show st' = (ingest_step connector cfg env initState rm).1 by rw [hstep]]
        exact ingest_step_cache_isSome connector cfg env initState rm
      obtain ⟨c, hc⟩ := Option.isSome_iff_exists.mp hcs
      cases ok with
      | true =>
        rw [ingest_loop_fetch_some connector cfg env rest st' c hc, hft]
        rfl
      | false =>
        rw [hft]
        rfl
    exact ⟨Nat.le_of_eq hlen, fun _ => hlen⟩

lemma fetch_phase_fail_eq (g₂ : Val → Except Unit (List Dict))
    (sc : Dict → String → List Val → Except Unit (Option String))
    (am : AddCall → Except Unit Unit) (st : LoopState) (uid : Val)
    (hc : st.memories_cache = none) (hg : g₂ uid = .ok []) :
    fetch_phase ⟨fun _ => .error (), sc, am⟩ st uid = fetch_phase ⟨g₂, sc, am⟩ st uid := by
  unfold fetch_phase
  rw [hc]
  simp only [hg]

lemma ingest_step_fetch_fail (connector : String) (cfg : IngestConfig)
    (g₂ : Val → Except Unit (List Dict))
    (sc : Dict → String → List Val → Except Unit (Option String))
    (am : AddCall → Except Unit Unit) (st : LoopState) (rm : Dict × Dict)
    (hc : st.memories_cache = none) (hg : ∀ u, g₂ u = .ok []) :
    ingest_step connector cfg ⟨fun _ => .error (), sc, am⟩ st rm
      = ingest_step connector cfg ⟨g₂, sc, am⟩ st rm := by
  unfold ingest_step
  simp only []
  rw [fetch_phase_fail_eq g₂ sc am _ _ (by simpa using hc) (hg _)]
  rfl

lemma ingest_step_env_get_indep (connector : String) (cfg : IngestConfig)
    (g₁ g₂ : Val → Except Unit (List Dict))
    (sc : Dict → String → List Val → Except Unit (Option String))
    (am : AddCall → Except Unit Unit) (st : LoopState) (rm : Dict × Dict)
    {c} (hc : st.memories_cache = some c) :
    ingest_step connector cfg ⟨g₁, sc, am⟩ st rm
      = ingest_step connector cfg ⟨g₂, sc, am⟩ st rm := by
  unfold ingest_step
  simp only []
  rw [fetch_phase_some (Env.mk g₁ sc am) _ (show ({ st with processed := st.processed + 1 } : LoopState).memories_cache = some c by simpa using hc),
    fetch_phase_some (Env.mk g₂ sc am) _ (show ({ st with processed := st.processed + 1 } : LoopState).memories_cache = some c by simpa using hc)]
  rfl

lemma ingest_loop_env_get_indep (connector : String) (cfg : IngestConfig)
    (g₁ g₂ : Val → Except Unit (List Dict))
    (sc : Dict → String → List Val → Except Unit (Option String))
    (am : AddCall → Except Unit Unit) :
    ∀ (l : List (Dict × Dict)) (st : LoopState) (c : List Dict),
    st.memories_cache = some c →
    ingest_loop connector cfg ⟨g₁, sc, am⟩ l st
      = ingest_loop connector cfg ⟨g₂, sc, am⟩ l st := by
  intro l
  induction l with
  | nil => intro st c _; rfl
  | cons rm rest ih =>
    intro st c hc
    simp only [ingest_loop]
    rw [ingest_step_env_get_indep connector cfg g₁ g₂ sc am st rm hc]
    rcases hstep : ingest_step connector cfg ⟨g₂, sc, am⟩ st rm with ⟨st', ok⟩
    have hcs : st'.memories_cache = some c := by
      rw [show st' = (ingest_step connector cfg ⟨g₂, sc, am⟩ st rm).1 by rw [hstep]]
      exact (ingest_step_cache_some connector cfg ⟨g₂, sc, am⟩ st rm hc).1
    cases ok with
    | true => exact ih st' c hcs
    | false => rfl

lemma ingest_file_fetch_swallow (connector : String)
    (records : List (Dict × Dict)) (cfg : IngestConfig)
    (sc : Dict → String → List Val → Except Unit (Option String))
    (am : AddCall → Except Unit Unit) :
    ingest_file connector records cfg ⟨fun _ => .error (), sc, am⟩
      = ingest_file connector records cfg ⟨fun _ => .ok [], sc, am⟩ := by
  unfold ingest_file
  cases hl : _iter_limited records cfg.limit with
  | nil => rfl
  | cons rm rest =>
    simp only [ingest_loop]
    rw [ingest_step_fetch_fail connector cfg (fun _ => .ok []) sc am initState rm rfl
      (fun u => rfl)]
    rcases hstep : ingest_step connector cfg ⟨fun _ => .ok [], sc, am⟩ initState rm
      with ⟨st', ok⟩
    have hcs : (st'.memories_cache).isSome = true := by
      rw [show st' = (ingest_step connector cfg ⟨fun _ => .ok [], sc, am⟩ initState rm).1
        by rw [hstep]]
      exact ingest_step_cache_isSome connector cfg _ initState rm
    obtain ⟨c, hc⟩ := Option.isSome_iff_exists.mp hcs
    cases ok with
    | true => exact ingest_loop_env_get_indep connector cfg _ _ sc am rest st' c hc
    | false => rfl

/-- C5.  With `dry_run` set, `ingest_file` issues no store calls and
returns `stored = 0`, while each iterated record still counts toward
`processed`: whenever the run completes without raising, `processed`
equals the number of records iterated (in particular it equals the number
of records of the file when no limit is set, whether or not any record's
text is non-empty). -/
theorem ingest_file_dry_run_stores_nothing :
    ∀ (connector : String) (records : List (Dict × Dict)) (cfg : IngestConfig)
      (env : Env), cfg.dry_run = true →
    (ingest_file connector records cfg env).1.addTrace = [] ∧
    (ingest_file connector records cfg env).1.stored = 0 ∧
    ((ingest_file connector records cfg env).2 = true →
      (ingest_file connector records cfg env).1.processed
        = (_iter_limited records cfg.limit).length) := by
  intro connector records cfg env h
  refine ⟨?_, ?_, ?_⟩
  · exact (ingest_loop_dry connector cfg env h _ initState).1
  · exact (ingest_loop_dry connector cfg env h _ initState).2
  · intro hok
    have h2 := ingest_loop_processed_ok connector cfg env
      (_iter_limited records cfg.limit) initState hok
    unfold ingest_file
    rw [h2]
    exact Nat.zero_add _

/-- C6.  `config.limit` truncates the records processed per file: whenever
the run completes, `processed` is the length of the truncated record list,
so with `limit = n` at most `n` records are processed (even if the run
raises part-way), and with `limit = None` all records are processed.  The
second conjunct is the spec's concrete case: a 5-record file with
`limit = 2` yields `processed = 2`. -/
theorem ingest_file_limit_truncates :
    (∀ (connector : String) (records : List (Dict × Dict)) (cfg : IngestConfig)
      (env : Env),
      ((ingest_file connector records cfg env).2 = true →
        (ingest_file connector records cfg env).1.processed
          = (_iter_limited records cfg.limit).length) ∧
      (∀ n, cfg.limit = some n →
        (ingest_file connector records cfg env).1.processed ≤ n) ∧
      (cfg.limit = none → (ingest_file connector records cfg env).2 = true →
        (ingest_file connector records cfg env).1.processed = records.length)) ∧
    (ingest_file "audio"
      (List.replicate 5 ([("text", Val.str "note")], [("source", Val.str "a.json")]))
      { defaultConfig with enrich := false, limit := some 2 }
      ⟨fun _ => .ok [], fun _ _ _ => .ok none, fun _ => .ok ()⟩).1.processed = 2 := by
  constructor
  · intro connector records cfg env
    refine ⟨?_, ?_, ?_⟩
    · intro hok
      have h2 := ingest_loop_processed_ok connector cfg env
        (_iter_limited records cfg.limit) initState hok
      unfold ingest_file
      rw [h2]
      exact Nat.zero_add _
    · intro n hn
      have hle := ingest_loop_processed_le connector cfg env
        (_iter_limited records cfg.limit) initState
      have : (_iter_limited records cfg.limit).length ≤ n := by
        rw [hn]
        unfold _iter_limited
        simp
      calc (ingest_file connector records cfg env).1.processed
          ≤ 0 + (_iter_limited records cfg.limit).length := hle
        _ ≤ n := by omega
    · intro hn hok
      have h2 := ingest_loop_processed_ok connector cfg env
        (_iter_limited records cfg.limit) initState hok
      unfold ingest_file
      rw [h2, hn]
      simp [_iter_limited, initState]
  · rfl

/-- C7.  Within one `ingest_file` run the memory list is requested at most
once — exactly once when at least one record is iterated, namely on the
first record — and a failing fetch is swallowed: a run whose fetch always
raises is identical to a run whose fetch returns the empty memory list, so
context selection proceeds with no memories and the file continues. -/
theorem ingest_file_fetch_once_and_swallowed :
    ∀ (connector : String) (records : List (Dict × Dict)) (cfg : IngestConfig),
    (∀ env : Env,
      (ingest_file connector records cfg env).1.fetchTrace.length ≤ 1 ∧
      (_iter_limited records cfg.limit ≠ [] →
        (ingest_file connector records cfg env).1.fetchTrace.length = 1)) ∧
    (∀ (sc : Dict → String → List Val → Except Unit (Option String))
      (am : AddCall → Except Unit Unit),
      ingest_file connector records cfg ⟨fun _ => .error (), sc, am⟩
        = ingest_file connector records cfg ⟨fun _ => .ok [], sc, am⟩) := by
  intro connector records cfg
  exact ⟨fun env => ingest_file_fetchTrace connector records cfg env,
    fun sc am => ingest_file_fetch_swallow connector records cfg sc am⟩

lemma ingest_file_stored_le_processed (connector : String)
    (records : List (Dict × Dict)) (cfg : IngestConfig) (env : Env) :
    (ingest_file connector records cfg env).1.stored
      ≤ (ingest_file connector records cfg env).1.processed :=
  ingest_loop_stored_le_processed connector cfg env _ initState (Nat.le_refl 0)

lemma ingest_paths_loop_sums (connector : String) (cfg : IngestConfig) (env : Env) :
    ∀ (files : List (List (Dict × Dict))) (tp ts TP TS : Nat),
    ingest_paths_loop connector cfg env files tp ts = some (TP, TS) →
    TP = tp + (files.map
      (fun f => (ingest_file connector f cfg env).1.processed)).sum ∧
    TS = ts + (files.map
      (fun f => (ingest_file connector f cfg env).1.stored)).sum := by
  intro files
  induction files with
  | nil =>
    intro tp ts TP TS h
    simp only [ingest_paths_loop, Option.some.injEq, Prod.mk.injEq] at h
    simp [← h.1, ← h.2]
  | cons f rest ih =>
    intro tp ts TP TS h
    simp only [ingest_paths_loop] at h
    rcases hf : ingest_file connector f cfg env with ⟨st, ok⟩
    rw [hf] at h
    cases ok with
    | true =>
      have := ih (tp + st.processed) (ts + st.stored) TP TS h
      simp only [List.map_cons, List.sum_cons, hf]
      omega
    | false => simp at h

/-- C10.  Every completed `ingest_file` run returns a pair with
`stored ≤ processed` (in this embedding the invariant holds for the final
loop state even when the run raises: each record adds exactly 1 to
`processed` and at most 1 to `stored`, the latter only after a successful
store call), and a completed `ingest_paths` run returns exactly the sums
of the per-file pairs, hence also satisfies `stored ≤ processed`. -/
theorem ingest_counts_invariant :
    ∀ (connector : String) (cfg : IngestConfig) (env : Env),
    (∀ records : List (Dict × Dict),
      (ingest_file connector records cfg env).1.stored
        ≤ (ingest_file connector records cfg env).1.processed) ∧
    (∀ (files : List (List (Dict × Dict))) (tp ts : Nat),
      ingest_paths connector files cfg env = some (tp, ts) →
      ts ≤ tp ∧
      tp = (files.map (fun f => (ingest_file connector f cfg env).1.processed)).sum ∧
      ts = (files.map (fun f => (ingest_file connector f cfg env).1.stored)).sum) := by
  intro connector cfg env
  refine ⟨fun records => ingest_file_stored_le_processed connector records cfg env, ?_⟩
  intro files tp ts h
  obtain ⟨h1, h2⟩ := ingest_paths_loop_sums connector cfg env files 0 0 tp ts h
  rw [Nat.zero_add] at h1 h2
  refine ⟨?_, h1, h2⟩
  rw [h1, h2]
  have hle : ∀ f ∈ files, (ingest_file connector f cfg env).1.stored
      ≤ (ingest_file connector f cfg env).1.processed :=
    fun f _ => ingest_file_stored_le_processed connector f cfg env
  exact List.sum_le_sum (by
    intro f hf
    exact hle f hf)

/-- The occurrence-count soundness of a trace: every entry records exactly
how many times its text has appeared in the trace up to and including
itself. -/
def occCounted (l : List (String × Nat)) : Prop :=
  ∀ pre e post, l = pre ++ e :: post →
    e.2 = (pre.filter (fun q => q.1 == e.1)).length + 1

/-- The loop invariant tying the `occurrence_counts` dictionary to the
trace of occurrence events. -/
def countsMatch (st : LoopState) : Prop :=
  ∀ t, st.occurrence_counts t = (st.occTrace.filter (fun q => q.1 == t)).length

lemma occCounted_nil : occCounted [] := by
  intro pre e post h
  exact absurd h (by simp)

lemma occCounted_snoc {l : List (String × Nat)} {t : String} {n : Nat}
    (hl : occCounted l) (hn : n = (l.filter (fun q => q.1 == t)).length + 1) :
    occCounted (l ++ [(t, n)]) := by
  intro pre e post h
  rcases List.eq_nil_or_concat post with hpost | ⟨post', a, hpost⟩
  · subst hpost
    obtain ⟨h1, h2⟩ := List.append_inj' h rfl
    have he : e = (t, n) := by
      cases h2
      rfl
    subst h1
    rw [he, hn]
  · subst hpost
    have h' : l ++ [(t, n)] = (pre ++ e :: post') ++ [a] := by
      rw [h]
      simp
    obtain ⟨h1, h2⟩ := List.append_inj' h' rfl
    exact hl pre e post' h1

lemma ingest_step_occ_inv (connector : String) (cfg : IngestConfig) (env : Env)
    (st : LoopState) (rm : Dict × Dict)
    (h1 : countsMatch st) (h2 : occCounted st.occTrace) :
    countsMatch (ingest_step connector cfg env st rm).1 ∧
    occCounted (ingest_step connector cfg env st rm).1.occTrace := by
  unfold ingest_step
  simp only []
  split
  · constructor
    · intro t
      rw [(fetch_phase_frame env _ _).2.2.2.2, (fetch_phase_frame env _ _).2.2.1]
      exact h1 t
    · rw [(fetch_phase_frame env _ _).2.2.1]
      exact h2
  · split
    · constructor
      · intro t
        rw [(fetch_phase_frame env _ _).2.2.2.2, (fetch_phase_frame env _ _).2.2.1]
        exact h1 t
      · rw [(fetch_phase_frame env _ _).2.2.1]
        exact h2
    · rename_i text heq hne
      have hocc := store_phase_occ connector cfg env
        (fetch_phase env { st with processed := st.processed + 1 }
          (resolve_user_id cfg rm.2))
        (resolve_user_id cfg rm.2)
        (dictSet rm.2 "user_id" (resolve_user_id cfg rm.2)) text
      have hfo : (fetch_phase env { st with processed := st.processed + 1 }
          (resolve_user_id cfg rm.2)).occTrace = st.occTrace :=
        (fetch_phase_frame env _ _).2.2.1
      have hfc : (fetch_phase env { st with processed := st.processed + 1 }
          (resolve_user_id cfg rm.2)).occurrence_counts = st.occurrence_counts :=
        (fetch_phase_frame env _ _).2.2.2.2
      constructor
      · intro t
        rw [hocc.1, hocc.2, hfo, hfc]
        by_cases ht : t = text
        · subst ht
          simp only [beq_self_eq_true, if_true, List.filter_append]
          rw [h1 t]
          simp
        · have hbt : (t == text) = false := beq_eq_false_iff_ne.mpr ht
          have hbt2 : (text == t) = false := beq_eq_false_iff_ne.mpr (Ne.symm ht)
          simp only [hbt, if_false, List.filter_append]
          rw [h1 t]
          simp [hbt2]
      · rw [hocc.1, hfo, hfc]
        exact occCounted_snoc h2 (by rw [h1 text])

lemma ingest_loop_occ_inv (connector : String) (cfg : IngestConfig) (env : Env) :
    ∀ (l : List (Dict × Dict)) (st : LoopState),
    countsMatch st → occCounted st.occTrace →
    occCounted (ingest_loop connector cfg env l st).1.occTrace := by
  intro l
  induction l with
  | nil => intro st _ h2; exact h2
  | cons rm rest ih =>
    intro st h1 h2
    simp only [ingest_loop]
    rcases hstep : ingest_step connector cfg env st rm with ⟨st', ok⟩
    have hinv : countsMatch st' ∧ occCounted st'.occTrace := by
      rw [show st' = (ingest_step connector cfg env st rm).1 by rw [hstep]]
      exact ingest_step_occ_inv connector cfg env st rm h1 h2
    cases ok with
    | true => exact ih st' hinv.1 hinv.2
    | false => exact hinv.2

/-- C9.  Occurrence counting keys on exact string equality of the derived
text and is scoped to one `ingest_file` invocation: whenever the run's
occurrence trace splits as `pre ++ e :: post`, the count recorded with
event `e` (the value written into `metadata["occurrence_count"]`) is
exactly one more than the number of earlier events in this run with the
same exact text — so the first occurrence gets 1, and counts never carry
across files since every invocation starts from the empty counter. -/
theorem ingest_file_occurrence_count_exact :
    ∀ (connector : String) (records : List (Dict × Dict)) (cfg : IngestConfig)
      (env : Env) (pre : List (String × Nat)) (e : String × Nat)
      (post : List (String × Nat)),
    (ingest_file connector records cfg env).1.occTrace = pre ++ e :: post →
    e.2 = (pre.filter (fun q => q.1 == e.1)).length + 1 := by
  intro connector records cfg env pre e post h
  have hocc : occCounted (ingest_file connector records cfg env).1.occTrace := by
    unfold ingest_file
    exact ingest_loop_occ_inv connector cfg env _ initState
      (fun t => rfl) occCounted_nil
  exact hocc pre e post h

/-- The record the calendar loader produces for the one-event file. -/
def dentistRecord : Dict :=
  [("summary", .str "Dentist"),
   ("description", .vnull),
   ("location", .vnull),
   ("start_utc", .str "2025-03-01T09:00:00+00:00"),
   ("end_utc", .str "2025-03-01T10:00:00+00:00"),
   ("attendees", .vnull),
   ("organizer", .vnull),
   ("calendar_name", .vnull)]

/-- The metadata the calendar loader produces for the one-event file. -/
def dentistMeta : Dict :=
  [("user_id", .str "dentist"),
   ("source", .str "dentist.json"),
   ("record_id", .str "event-0"),
   ("timestamp", .str "2025-03-01T09:00:00+00:00"),
   ("start_utc", .str "2025-03-01T09:00:00+00:00"),
   ("end_utc", .str "2025-03-01T10:00:00+00:00")]

/-- The configuration of the end-to-end scenario: dataclass defaults with
enrichment disabled (`dry_run` stays off). -/
def cfgRawStore : IngestConfig := { defaultConfig with enrich := false }

/-- The single store call the end-to-end scenario must issue. -/
def dentistCall : AddCall :=
  ⟨.str "demo_user", "Dentist",
   [("connector", .str "calendar"),
    ("source", .str "dentist.json"),
    ("record_id", .str "event-0"),
    ("timestamp", .str "2025-03-01T09:00:00+00:00")],
   false⟩

/-- C2.  End-to-end: ingesting the one-event calendar file (enrichment
disabled, `dry_run` off) issues exactly one store call, whatever the
memory service's fetch and store responses are; its text is `"Dentist"`
and its persisted metadata is exactly the four fields
`connector = "calendar"`, `source = "dentist.json"`,
`record_id = "event-0"`, `timestamp = "2025-03-01T09:00:00+00:00"`
(in particular `occurrence_count` is not among them). -/
theorem ingest_dentist_single_store :
    ∀ env : Env,
    (ingest_file "calendar" (load_calendar_file dentistData "dentist.json" "dentist")
      cfgRawStore env).1.addTrace = [dentistCall] := by
  intro env
  obtain ⟨g, sc, am⟩ := env
  show (ingest_loop "calendar" cfgRawStore ⟨g, sc, am⟩ [(dentistRecord, dentistMeta)]
    initState).1.addTrace = [dentistCall]
  simp only [ingest_loop]
  unfold ingest_step
  simp only []
  rw [show resolve_user_id cfgRawStore dentistMeta = Val.str "demo_user" from rfl]
  rw [show ∀ priors, derive_text "calendar" cfgRawStore ⟨g, sc, am⟩ dentistRecord priors
    = Except.ok "Dentist" from fun _ => rfl]
  dsimp only
  rw [if_neg (show ¬ (("Dentist" == "") = true) by decide)]
  unfold store_phase
  simp only []
  generalize hF : fetch_phase { get_memories := g, sample_content := sc, add_memory := am }
    { processed := initState.processed + 1, stored := initState.stored,
      occurrence_counts := initState.occurrence_counts,
      memories_cache := initState.memories_cache, fetchTrace := initState.fetchTrace,
      occTrace := initState.occTrace, addTrace := initState.addTrace }
    (Val.str "demo_user") = F
  have hFa : F.addTrace = [] := by
    rw [← hF]
    exact (fetch_phase_frame _ _ _).2.2.2.1
  rw [show ∀ n : Int, dictGet (dictSet (dictSet dentistMeta "user_id"
      (Val.str "demo_user")) "occurrence_count" (Val.int n)) "source"
      = some (Val.str "dentist.json") from fun _ => rfl]
  dsimp only
  rw [if_neg (show ¬ (cfgRawStore.dry_run = true) by decide)]
  rw [show ∀ n : Int, (dictGet (dictSet (dictSet dentistMeta "user_id"
      (Val.str "demo_user")) "occurrence_count" (Val.int n)) "record_id").getD .vnull
      = Val.str "event-0" from fun _ => rfl]
  rw [show ∀ n : Int, (dictGet (dictSet (dictSet dentistMeta "user_id"
      (Val.str "demo_user")) "occurrence_count" (Val.int n)) "timestamp").getD .vnull
      = Val.str "2025-03-01T09:00:00+00:00" from fun _ => rfl]
  cases ham : am ⟨Val.str "demo_user", "Dentist", [("connector", Val.str "calendar"), ("source", Val.str "dentist.json"), ("record_id", Val.str "event-0"), ("timestamp", Val.str "2025-03-01T09:00:00+00:00")], false⟩ with
  | error a =>
    dsimp only
    rw [hFa]
    rfl
  | ok a =>
    dsimp only
    rw [hFa]
    rfl

/-- An environment whose services always succeed trivially: the memory
list is empty, enrichment returns no content, stores succeed. -/
def envTrivial : Env :=
  ⟨fun _ => .ok [], fun _ _ _ => .ok none, fun _ => .ok ()⟩

/-- A record/metadata pair whose raw text is `"hi"`. -/
def recHi : Dict × Dict :=
  ([("text", Val.str "hi")], [("source", Val.str "f.json")])

/-- Witness for the dry-run theorem at a concrete one-record file. -/
theorem ingest_file_dry_run_stores_nothing_witness :
    (ingest_file "audio" [recHi]
      { defaultConfig with dry_run := true, enrich := false } envTrivial).1.addTrace = [] ∧
    (ingest_file "audio" [recHi]
      { defaultConfig with dry_run := true, enrich := false } envTrivial).1.stored = 0 ∧
    ((ingest_file "audio" [recHi]
      { defaultConfig with dry_run := true, enrich := false } envTrivial).2 = true →
      (ingest_file "audio" [recHi]
        { defaultConfig with dry_run := true, enrich := false } envTrivial).1.processed
        = (_iter_limited [recHi]
            ({ defaultConfig with dry_run := true, enrich := false } : IngestConfig).limit).length) :=
  ingest_file_dry_run_stores_nothing "audio" [recHi]
    { defaultConfig with dry_run := true, enrich := false } envTrivial rfl

/-- Witness for the occurrence-count theorem: a two-record file whose
records both derive the text `"hi"`; the second occurrence event records
the count 2, which is one more than the one earlier `"hi"` event. -/
theorem ingest_file_occurrence_count_exact_witness :
    (ingest_file "audio" [recHi, recHi] { defaultConfig with enrich := false }
      envTrivial).1.occTrace = [("hi", 1)] ++ ("hi", 2) :: [] ∧
    ("hi", 2).2 = (([("hi", 1)] : List (String × Nat)).filter
      (fun q => q.1 == ("hi", 2).1)).length + 1 :=
  ⟨rfl, ingest_file_occurrence_count_exact "audio" [recHi, recHi]
    { defaultConfig with enrich := false } envTrivial [("hi", 1)] ("hi", 2) [] rfl⟩

end Jarvix
